import Mathlib

/-!
Verification of the `colour` excerpt: the CIE UCS colour-space transforms
(`src/colour/models/cie_ucs.py`) embedded from the source over exact rational
arithmetic, and the 1-D interpolation/extrapolation algebra toolkit
(`SpragueInterpolator`, `LinearInterpolator`, `Extrapolator1d`, `get_closest`,
`is_uniform`), whose implementation modules are re-exported by
`src/colour/algebra/__init__.py` but are not part of the excerpt, modelled
from the specification.

Arrays of shape (n, 3) / (n, 2) are `List` of triples / pairs; `tsplit` and
`tstack` from `colour.utilities` split such a list into component lists and
zip component lists back, matching the numpy axis manipulation of the source.
-/

/-- `tsplit` on an (n, 3) array: three component lists, as in
`X, Y, Z = tsplit(XYZ)`. -/
def tsplit3 (a : List (ℚ × ℚ × ℚ)) : List ℚ × List ℚ × List ℚ :=
  (a.map fun p => p.1, a.map fun p => p.2.1, a.map fun p => p.2.2)

/-- `tstack` of three component lists into an (n, 3) array. -/
def tstack3 (X Y Z : List ℚ) : List (ℚ × ℚ × ℚ) :=
  List.zipWith (fun x p => (x, p)) X (List.zipWith (fun y z => (y, z)) Y Z)

/-- `tsplit` on an (n, 2) array. -/
def tsplit2 (a : List (ℚ × ℚ)) : List ℚ × List ℚ :=
  (a.map Prod.fst, a.map Prod.snd)

/-- `tstack` of two component lists into an (n, 2) array. -/
def tstack2 (u v : List ℚ) : List (ℚ × ℚ) :=
  List.zipWith (fun a b => (a, b)) u v

/-- numpy broadcast of `c * arr`. -/
def bmul (c : ℚ) (l : List ℚ) : List ℚ := l.map fun x => c * x

/-- numpy element-wise `arr + arr`. -/
def badd (a b : List ℚ) : List ℚ := List.zipWith (· + ·) a b

/-- numpy element-wise `arr - arr`. -/
def bsub (a b : List ℚ) : List ℚ := List.zipWith (· - ·) a b

/-- numpy element-wise unary minus. -/
def bneg (a : List ℚ) : List ℚ := a.map fun x => -x

/-- numpy element-wise `arr / arr`. -/
def bdiv (a b : List ℚ) : List ℚ := List.zipWith (· / ·) a b

/-- numpy broadcast of `arr + c`. -/
def baddc (l : List ℚ) (c : ℚ) : List ℚ := l.map fun x => x + c

/-- `XYZ_to_UCS` of `cie_ucs.py` on a single tristimulus triple:
`UVW = tstack((2 / 3 * X, Y, 1 / 2 * (-X + 3 * Y + Z)))`. -/
def XYZ_to_UCS (XYZ : ℚ × ℚ × ℚ) : ℚ × ℚ × ℚ :=
  (2 / 3 * XYZ.1, XYZ.2.1, 1 / 2 * (-XYZ.1 + 3 * XYZ.2.1 + XYZ.2.2))

/-- `UCS_to_XYZ` of `cie_ucs.py` on a single triple:
`XYZ = tstack((3 / 2 * U, V, 3 / 2 * U - (3 * V) + (2 * W)))`. -/
def UCS_to_XYZ (UVW : ℚ × ℚ × ℚ) : ℚ × ℚ × ℚ :=
  (3 / 2 * UVW.1, UVW.2.1, 3 / 2 * UVW.1 - 3 * UVW.2.1 + 2 * UVW.2.2)

/-- `UCS_to_uv` of `cie_ucs.py` on a single triple:
`uv = tstack((U / (U + V + W), V / (U + V + W)))`. -/
def UCS_to_uv (UVW : ℚ × ℚ × ℚ) : ℚ × ℚ :=
  (UVW.1 / (UVW.1 + UVW.2.1 + UVW.2.2), UVW.2.1 / (UVW.1 + UVW.2.1 + UVW.2.2))

/-- `UCS_uv_to_xy` of `cie_ucs.py` on a single pair:
`xy = tstack((3 * u / (2 * u - 8 * v + 4), 2 * v / (2 * u - 8 * v + 4)))`. -/
def UCS_uv_to_xy (uv : ℚ × ℚ) : ℚ × ℚ :=
  (3 * uv.1 / (2 * uv.1 - 8 * uv.2 + 4), 2 * uv.2 / (2 * uv.1 - 8 * uv.2 + 4))

/-- `XYZ_to_UCS` on an (n, 3) array, via `tsplit`, broadcast arithmetic and
`tstack` exactly as in the source. -/
def XYZ_to_UCS_a (XYZ : List (ℚ × ℚ × ℚ)) : List (ℚ × ℚ × ℚ) :=
  tstack3 (bmul (2 / 3) (tsplit3 XYZ).1) (tsplit3 XYZ).2.1
    (bmul (1 / 2)
      (badd (badd (bneg (tsplit3 XYZ).1) (bmul 3 (tsplit3 XYZ).2.1)) (tsplit3 XYZ).2.2))

/-- `UCS_to_XYZ` on an (n, 3) array. -/
def UCS_to_XYZ_a (UVW : List (ℚ × ℚ × ℚ)) : List (ℚ × ℚ × ℚ) :=
  tstack3 (bmul (3 / 2) (tsplit3 UVW).1) (tsplit3 UVW).2.1
    (badd (bsub (bmul (3 / 2) (tsplit3 UVW).1) (bmul 3 (tsplit3 UVW).2.1))
      (bmul 2 (tsplit3 UVW).2.2))

/-- `UCS_to_uv` on an (n, 3) array. -/
def UCS_to_uv_a (UVW : List (ℚ × ℚ × ℚ)) : List (ℚ × ℚ) :=
  tstack2
    (bdiv (tsplit3 UVW).1 (badd (badd (tsplit3 UVW).1 (tsplit3 UVW).2.1) (tsplit3 UVW).2.2))
    (bdiv (tsplit3 UVW).2.1 (badd (badd (tsplit3 UVW).1 (tsplit3 UVW).2.1) (tsplit3 UVW).2.2))

/-- `UCS_uv_to_xy` on an (n, 2) array. -/
def UCS_uv_to_xy_a (uv : List (ℚ × ℚ)) : List (ℚ × ℚ) :=
  tstack2
    (bdiv (bmul 3 (tsplit2 uv).1) (baddc (bsub (bmul 2 (tsplit2 uv).1) (bmul 8 (tsplit2 uv).2)) 4))
    (bdiv (bmul 2 (tsplit2 uv).2) (baddc (bsub (bmul 2 (tsplit2 uv).1) (bmul 8 (tsplit2 uv).2)) 4))

/-- C2: `XYZ_to_UCS` and `UCS_to_XYZ` are mutually inverse on every triple,
under exact rational arithmetic. -/
theorem XYZ_UCS_mutually_inverse :
    (∀ t : ℚ × ℚ × ℚ, UCS_to_XYZ (XYZ_to_UCS t) = t) ∧
    (∀ t : ℚ × ℚ × ℚ, XYZ_to_UCS (UCS_to_XYZ t) = t) := by
  constructor <;> rintro ⟨a, b, c⟩ <;>
    simp only [XYZ_to_UCS, UCS_to_XYZ, Prod.mk.injEq] <;>
    refine ⟨by ring, trivial, by ring⟩

lemma XYZ_to_UCS_a_map (a : List (ℚ × ℚ × ℚ)) : XYZ_to_UCS_a a = a.map XYZ_to_UCS := by
  induction a with
  | nil => rfl
  | cons p r ih =>
    simp only [XYZ_to_UCS_a, tsplit3, tstack3, bmul, badd, bneg, List.map_cons,
      List.zipWith_cons_cons] at ih ⊢
    exact congrArg _ ih

lemma UCS_to_XYZ_a_map (a : List (ℚ × ℚ × ℚ)) : UCS_to_XYZ_a a = a.map UCS_to_XYZ := by
  induction a with
  | nil => rfl
  | cons p r ih =>
    simp only [UCS_to_XYZ_a, tsplit3, tstack3, bmul, badd, bsub, List.map_cons,
      List.zipWith_cons_cons] at ih ⊢
    exact congrArg _ ih

lemma UCS_to_uv_a_map (a : List (ℚ × ℚ × ℚ)) : UCS_to_uv_a a = a.map UCS_to_uv := by
  induction a with
  | nil => rfl
  | cons p r ih =>
    simp only [UCS_to_uv_a, tsplit3, tstack2, bdiv, badd, List.map_cons,
      List.zipWith_cons_cons] at ih ⊢
    exact congrArg _ ih

lemma UCS_uv_to_xy_a_map (a : List (ℚ × ℚ)) : UCS_uv_to_xy_a a = a.map UCS_uv_to_xy := by
  induction a with
  | nil => rfl
  | cons p r ih =>
    simp only [UCS_uv_to_xy_a, tsplit2, tstack2, bdiv, bsub, bmul, baddc, List.map_cons,
      List.zipWith_cons_cons] at ih ⊢
    exact congrArg _ ih

/-- C3: each colour-space transform on an array is stateless and purely
element-wise: it equals the `List.map` of its scalar rule, so each output
component is a fixed arithmetic function of only the corresponding input
triple/pair, the output length equals the input length, and the trailing
dimension is fixed (3 for UVW/XYZ outputs, 2 for uv/xy outputs, enforced by
the result types `List (ℚ × ℚ × ℚ)` and `List (ℚ × ℚ)`). -/
theorem transforms_elementwise :
    (∀ a, XYZ_to_UCS_a a = a.map XYZ_to_UCS) ∧
    (∀ a, UCS_to_XYZ_a a = a.map UCS_to_XYZ) ∧
    (∀ a, UCS_to_uv_a a = a.map UCS_to_uv) ∧
    (∀ a, UCS_uv_to_xy_a a = a.map UCS_uv_to_xy) ∧
    (∀ a, (XYZ_to_UCS_a a).length = a.length) ∧
    (∀ a, (UCS_to_uv_a a).length = a.length) :=
  ⟨XYZ_to_UCS_a_map, UCS_to_XYZ_a_map, UCS_to_uv_a_map, UCS_uv_to_xy_a_map,
    fun a => by rw [XYZ_to_UCS_a_map]; exact a.length_map _,
    fun a => by rw [UCS_to_uv_a_map]; exact a.length_map _⟩

/-- C9: `UCS_to_uv` and `UCS_uv_to_xy` apply their division formulas
unconditionally, with no error branch: the formulas hold for every input,
including inputs whose denominator `U + V + W` resp. `2 * u - 8 * v + 4` is
zero, where the functions still return a value (the division is by zero; in
the rational embedding `x / 0 = 0`) instead of raising a typed error. -/
theorem ucs_divisions_unguarded :
    (∀ U V W : ℚ, UCS_to_uv (U, V, W) = (U / (U + V + W), V / (U + V + W))) ∧
    (∀ u v : ℚ, UCS_uv_to_xy (u, v) = (3 * u / (2 * u - 8 * v + 4), 2 * v / (2 * u - 8 * v + 4))) ∧
    ((1 : ℚ) + -1 + 0 = 0 ∧ UCS_to_uv (1, -1, 0) = (1 / 0, -1 / 0)) ∧
    (2 * (-2 : ℚ) - 8 * 0 + 4 = 0 ∧ UCS_uv_to_xy (-2, 0) = (3 * -2 / 0, 2 * 0 / 0)) :=
  ⟨fun _ _ _ => rfl, fun _ _ => rfl, ⟨by norm_num, by norm_num [UCS_to_uv]⟩,
    ⟨by norm_num, by norm_num [UCS_uv_to_xy]⟩⟩

/-- C10: for a triple with `X + Y + Z ≠ 0` and nonzero intermediate
denominator (`U + V + W`, which equals `(X + 15Y + 3Z) / 6`), the composition
`UCS_uv_to_xy ∘ UCS_to_uv ∘ XYZ_to_UCS` yields the CIE xy chromaticity
coordinates `(X / (X + Y + Z), Y / (X + Y + Z))` under exact arithmetic. -/
theorem XYZ_to_xy_roundtrip (X Y Z : ℚ) (h1 : X + Y + Z ≠ 0)
    (h2 : X + 15 * Y + 3 * Z ≠ 0) :
    UCS_uv_to_xy (UCS_to_uv (XYZ_to_UCS (X, Y, Z))) =
      (X / (X + Y + Z), Y / (X + Y + Z)) := by
  have hT : (2 / 3 * X) + Y + (1 / 2 * (-X + 3 * Y + Z)) = (X + 15 * Y + 3 * Z) / 6 := by ring
  have h6 : (X + 15 * Y + 3 * Z) / 6 ≠ 0 := by
    intro h; exact h2 (by linarith [h])
  simp only [XYZ_to_UCS, UCS_to_uv, UCS_uv_to_xy, hT]
  have hu : 2 / 3 * X / ((X + 15 * Y + 3 * Z) / 6) = 4 * X / (X + 15 * Y + 3 * Z) := by
    rw [div_div_eq_mul_div]; ring
  have hv : Y / ((X + 15 * Y + 3 * Z) / 6) = 6 * Y / (X + 15 * Y + 3 * Z) := by
    rw [div_div_eq_mul_div]; ring
  rw [hu, hv]
  have hD : 2 * (4 * X / (X + 15 * Y + 3 * Z)) - 8 * (6 * Y / (X + 15 * Y + 3 * Z)) + 4 =
      12 * (X + Y + Z) / (X + 15 * Y + 3 * Z) := by
    field_simp; ring
  rw [hD, Prod.mk.injEq]
  constructor
  · rw [show (3 : ℚ) * (4 * X / (X + 15 * Y + 3 * Z)) = 12 * X / (X + 15 * Y + 3 * Z) by
      ring]
    rw [div_div_div_cancel_right₀ h2]
    rw [show (12 : ℚ) * X = X * 12 by ring,
      show (12 : ℚ) * (X + Y + Z) = (X + Y + Z) * 12 by ring]
    exact mul_div_mul_right _ _ (by norm_num)
  · rw [show (2 : ℚ) * (6 * Y / (X + 15 * Y + 3 * Z)) = 12 * Y / (X + 15 * Y + 3 * Z) by
      ring]
    rw [div_div_div_cancel_right₀ h2]
    rw [show (12 : ℚ) * Y = Y * 12 by ring,
      show (12 : ℚ) * (X + Y + Z) = (X + Y + Z) * 12 by ring]
    exact mul_div_mul_right _ _ (by norm_num)

/-- Witness for C10 at the concrete triple (1, 1, 1). -/
theorem XYZ_to_xy_roundtrip_witness :
    ((1 : ℚ) + 1 + 1 ≠ 0 ∧ (1 : ℚ) + 15 * 1 + 3 * 1 ≠ 0) ∧
      UCS_uv_to_xy (UCS_to_uv (XYZ_to_UCS (1, 1, 1))) = (1 / (1 + 1 + 1), 1 / (1 + 1 + 1)) :=
  ⟨⟨by norm_num, by norm_num⟩, XYZ_to_xy_roundtrip 1 1 1 (by norm_num) (by norm_num)⟩

/-!
The 1-D algebra toolkit. `src/colour/algebra/__init__.py` re-exports
`get_closest`, `is_uniform`, `get_steps`, `Extrapolator1d`,
`LinearInterpolator` and `SpragueInterpolator` from modules that are not part
of the excerpt, so the definitions below are modelled from the specification.
The error taxonomy distinguishes the three kinds of typed failures. -/

/-- Modelled from the spec: the typed error taxonomy of the algebra toolkit
(construction error, domain-configuration error for a non-uniform Sprague
domain, out-of-domain query error, extrapolation configuration error). -/
inductive AlgebraError where
  | construction
  | domainConfig
  | domainError
  | configError
deriving DecidableEq, Repr

/-- Modelled from the spec: `get_steps(domain)` of `colour.algebra.common`:
the distinct consecutive differences between domain values. -/
def get_steps (domain : List ℚ) : List ℚ :=
  (List.zipWith (fun a b => b - a) domain domain.tail).dedup

/-- Modelled from the spec: `is_uniform(domain)`: true iff `get_steps` yields
exactly one distinct value; a domain of length at most one is trivially
uniform, the convention the spec states. -/
def is_uniform (domain : List ℚ) : Bool :=
  decide ((get_steps domain).length ≤ 1)

/-- Modelled from the spec: `get_closest(values, target)`: the element with
minimum absolute difference to the target; on a tie the element encountered
first in the input ordering wins (the earlier element is kept unless a
strictly smaller difference appears). -/
def get_closest : List ℚ → ℚ → Option ℚ
  | [], _ => none
  | v :: vs, t =>
    match get_closest vs t with
    | none => some v
    | some r => some (if |r - t| < |v - t| then r else v)

/-- Strict monotonicity of a domain, checked at interpolant construction. -/
def strictlyIncreasing : List ℚ → Bool
  | a :: b :: r => decide (a < b) && strictlyIncreasing (b :: r)
  | _ => true

/-- Modelled from the spec: the Linear Interpolator owns its sample series
after construction. -/
structure LinearInterpolator where
  x : List ℚ
  y : List ℚ

/-- Modelled from the spec: Linear Interpolator construction; fails fast with
a construction error when the series violates the shape/length/monotonicity
preconditions (strictly increasing domain, equal lengths, at least two
points). -/
def LinearInterpolator.create (x y : List ℚ) : Except AlgebraError LinearInterpolator :=
  if strictlyIncreasing x && (x.length == y.length) && decide (2 ≤ x.length) then
    .ok ⟨x, y⟩
  else
    .error .construction

/-- Modelled from the spec: search for the bracketing interval over the
sorted domain, then the straight-line formula
`y_i + (y_{i+1} - y_i) * (x - x_i) / (x_{i+1} - x_i)`. -/
def bracket (x : ℚ) : List (ℚ × ℚ) → ℚ
  | p :: q :: r =>
    if x ≤ q.1 then p.2 + (q.2 - p.2) * (x - p.1) / (q.1 - p.1)
    else bracket x (q :: r)
  | _ => 0

/-- Modelled from the spec: Linear Interpolator evaluation: a query outside
`[min(domain), max(domain)]` fails with a domain error, otherwise the
bracketing interval is located and the straight-line formula applied. -/
def LinearInterpolator.evaluate (L : LinearInterpolator) (x : ℚ) : Except AlgebraError ℚ :=
  if x < L.x.headI ∨ L.x.getLastD 0 < x then .error .domainError
  else .ok (bracket x (L.x.zip L.y))

/-- Modelled from the spec: the Sprague Interpolator owns its sample series
after construction. -/
structure SpragueInterpolator where
  x : List ℚ
  y : List ℚ

/-- Modelled from the spec: one step of the fixed polynomial
boundary-extension formula: the value one position further outward of the
degree-five polynomial through the six samples nearest the edge (`s` lists
the samples from that edge inward), a fixed linear combination of those six
samples. -/
def ext_point (s : List ℚ) : ℚ :=
  6 * s.getD 0 0 - 15 * s.getD 1 0 + 20 * s.getD 2 0 - 15 * s.getD 3 0 +
    6 * s.getD 4 0 - s.getD 5 0

/-- Modelled from the spec: the three synthetic points extending one side of
the series, nearest synthetic point first; each is a fixed linear
combination of the six real samples nearest that edge. -/
def extension3 (s : List ℚ) : List ℚ :=
  [ext_point s, ext_point (ext_point s :: s),
    ext_point (ext_point (ext_point s :: s) :: ext_point s :: s)]

/-- Modelled from the spec: the boundary-extended range: three synthetic
points on each side of the original samples. -/
def extended (y : List ℚ) : List ℚ :=
  (extension3 y).reverse ++ y ++ extension3 y.reverse

/-- Modelled from the spec: the fixed Sprague quintic in the fractional
position `t`, its coefficients the published fixed linear combinations of the
six samples around the window; it reduces to the sample value `p0` at
`t = 0`. -/
def sprague_poly (pm2 pm1 p0 p1 p2 p3 t : ℚ) : ℚ :=
  p0 + (2 * pm2 - 16 * pm1 + 16 * p1 - 2 * p2) / 24 * t +
    (-pm2 + 16 * pm1 - 30 * p0 + 16 * p1 - p2) / 24 * t ^ 2 +
    (-9 * pm2 + 39 * pm1 - 70 * p0 + 66 * p1 - 33 * p2 + 7 * p3) / 24 * t ^ 3 +
    (13 * pm2 - 64 * pm1 + 126 * p0 - 124 * p1 + 61 * p2 - 12 * p3) / 24 * t ^ 4 +
    (-5 * pm2 + 25 * pm1 - 50 * p0 + 50 * p1 - 25 * p2 + 5 * p3) / 24 * t ^ 5

/-- Modelled from the spec: Sprague Interpolator construction: a non-uniform
domain is rejected fail-fast with a domain-configuration error; the remaining
series preconditions (strictly increasing domain, equal lengths, at least six
points) fail with a construction error. -/
def SpragueInterpolator.create (x y : List ℚ) : Except AlgebraError SpragueInterpolator :=
  if is_uniform x = false then .error .domainConfig
  else if strictlyIncreasing x && (x.length == y.length) && decide (6 ≤ x.length) then
    .ok ⟨x, y⟩
  else .error .construction

/-- The in-domain part of Sprague evaluation (window selection and quintic),
split out for reuse. -/
def sprague_window (xs ys : List ℚ) (x : ℚ) : ℚ :=
  (fun (i : ℕ) (t : ℚ) =>
    sprague_poly (((extended ys).drop (i + 1)).getD 0 0)
      (((extended ys).drop (i + 1)).getD 1 0)
      (((extended ys).drop (i + 1)).getD 2 0)
      (((extended ys).drop (i + 1)).getD 3 0)
      (((extended ys).drop (i + 1)).getD 4 0)
      (((extended ys).drop (i + 1)).getD 5 0) t)
    (⌊(x - xs.headI) / (xs.tail.headI - xs.headI)⌋.toNat)
    ((x - xs.headI) / (xs.tail.headI - xs.headI) -
      (⌊(x - xs.headI) / (xs.tail.headI - xs.headI)⌋.toNat : ℚ))

/-- Modelled from the spec: Sprague evaluation: a query outside
`[min(domain), max(domain)]` fails with a domain error; otherwise the window
index is the integer part of `(x - x0) / h` and the fractional position `t`
its fractional part, and the fixed quintic is evaluated on the six
boundary-extended samples surrounding the window. -/
def SpragueInterpolator.evaluate (S : SpragueInterpolator) (x : ℚ) : Except AlgebraError ℚ :=
  if x < S.x.headI ∨ S.x.getLastD 0 < x then .error .domainError
  else .ok (sprague_window S.x S.y x)

/-- Modelled from the spec: the extrapolation method enumeration. -/
inductive ExtrapolationMethod where
  | methodLinear
  | methodConstant
deriving DecidableEq, Repr

/-- Modelled from the spec: `Extrapolator1d` wraps an interpolant exposing
evaluation over the known domain whose samples are `xs`; the method is
attached at construction and immutable. -/
structure Extrapolator1d where
  method : ExtrapolationMethod
  xs : List ℚ
  ev : ℚ → Except AlgebraError ℚ

/-- Modelled from the spec: Extrapolator evaluation: below the domain,
constant extension returns `f(lo)` and linear extension
`f(lo) + (x - lo) * (f(x1) - f(x0)) / (x1 - x0)` with the slope between the
first two domain samples; symmetrically above the domain with the last two
samples; inside `[lo, hi]` the query is delegated to the wrapped
interpolant, whose failures propagate unmodified. -/
def Extrapolator1d.evaluate (E : Extrapolator1d) (x : ℚ) : Except AlgebraError ℚ :=
  if x < E.xs.headI then
    match E.method with
    | .methodConstant => E.ev E.xs.headI
    | .methodLinear => do
      let flo ← E.ev E.xs.headI
      let f0 ← E.ev (E.xs.getD 0 0)
      let f1 ← E.ev (E.xs.getD 1 0)
      pure (flo + (x - E.xs.headI) * (f1 - f0) / (E.xs.getD 1 0 - E.xs.getD 0 0))
  else if E.xs.getLastD 0 < x then
    match E.method with
    | .methodConstant => E.ev (E.xs.getLastD 0)
    | .methodLinear => do
      let fhi ← E.ev (E.xs.getLastD 0)
      let fa ← E.ev (E.xs.getD (E.xs.length - 2) 0)
      let fb ← E.ev (E.xs.getD (E.xs.length - 1) 0)
      pure (fhi + (x - E.xs.getLastD 0) * (fb - fa) /
        (E.xs.getD (E.xs.length - 1) 0 - E.xs.getD (E.xs.length - 2) 0))
  else E.ev x

/-- Wrapping a Linear Interpolator in an Extrapolator, as a caller does. -/
def wrapLinear (L : LinearInterpolator) (m : ExtrapolationMethod) : Extrapolator1d :=
  ⟨m, L.x, L.evaluate⟩

/-- C8: for every non-empty list and target, `get_closest` returns an element
of the list with minimum absolute difference to the target, and it is the
first-encountered such element (everything before it in the list is strictly
farther); in particular `get_closest [1,2,3,4] 2.5 = 2`, the first-encountered
of the equidistant pair {2, 3}. -/
theorem get_closest_min_first :
    (∀ (values : List ℚ) (t : ℚ), values ≠ [] →
      ∃ r l1 l2, get_closest values t = some r ∧ values = l1 ++ r :: l2 ∧
        (∀ u ∈ values, |r - t| ≤ |u - t|) ∧ (∀ u ∈ l1, |r - t| < |u - t|)) ∧
    get_closest [1, 2, 3, 4] (5 / 2) = some 2 := by
  constructor
  · intro values t
    induction values with
    | nil => intro h; exact absurd rfl h
    | cons v vs ih =>
      intro _
      by_cases hvs : vs = []
      · subst hvs
        refine ⟨v, [], [], rfl, rfl, ?_, ?_⟩
        · intro u hu; rw [List.mem_singleton] at hu; rw [hu]
        · intro u hu; exact absurd hu (List.not_mem_nil u)
      · obtain ⟨r, l1, l2, h1, h2, h3, h4⟩ := ih hvs
        by_cases hlt : |r - t| < |v - t|
        · refine ⟨r, v :: l1, l2, ?_, ?_, ?_, ?_⟩
          · simp [get_closest, h1, hlt]
          · rw [h2]; rfl
          · intro u hu
            rcases List.mem_cons.mp hu with h | h
            · rw [h]; exact le_of_lt hlt
            · exact h3 u h
          · intro u hu
            rcases List.mem_cons.mp hu with h | h
            · rw [h]; exact hlt
            · exact h4 u h
        · refine ⟨v, [], vs, ?_, rfl, ?_, ?_⟩
          · simp [get_closest, h1, hlt]
          · intro u hu
            rcases List.mem_cons.mp hu with h | h
            · rw [h]
            · exact le_trans (not_lt.mp hlt) (h3 u h)
          · intro u hu; exact absurd hu (List.not_mem_nil u)
  · norm_num [get_closest, abs]

/-- Witness for C8 applied to the list [1, 0, 4] and target 2. -/
theorem get_closest_min_first_witness :
    ([1, 0, 4] ≠ ([] : List ℚ)) ∧
      ∃ r l1 l2, get_closest [1, 0, 4] 2 = some r ∧ ([1, 0, 4] : List ℚ) = l1 ++ r :: l2 ∧
        (∀ u ∈ ([1, 0, 4] : List ℚ), |r - 2| ≤ |u - 2|) ∧ (∀ u ∈ l1, |r - 2| < |u - 2|) :=
  ⟨by simp, get_closest_min_first.1 [1, 0, 4] 2 (by simp)⟩

lemma headI_mem_of_ne_nil (l : List ℚ) (h : l ≠ []) : l.headI ∈ l := by
  cases l with
  | nil => exact absurd rfl h
  | cons v vs => simp [List.headI]

lemma getLastD_mem_of_ne_nil (l : List ℚ) (h : l ≠ []) : l.getLastD 0 ∈ l := by
  rw [List.getLastD_eq_getLast?, List.getLast?_eq_getLast l h]
  simp

/-- C7: a Sprague Interpolator constructed from a series whose domain is not
uniform fails with a domain-configuration error at construction time, and the
rejection is never deferred: no interpolant value is ever produced from such
a series, so there is nothing to evaluate. -/
theorem sprague_nonuniform_rejected :
    (∀ x y : List ℚ, is_uniform x = false →
      SpragueInterpolator.create x y = .error .domainConfig) ∧
    (∀ (x y : List ℚ) (S : SpragueInterpolator), is_uniform x = false →
      SpragueInterpolator.create x y ≠ .ok S) := by
  have h1 : ∀ x y : List ℚ, is_uniform x = false →
      SpragueInterpolator.create x y = .error .domainConfig := by
    intro x y h
    simp [SpragueInterpolator.create, h]
  exact ⟨h1, fun x y S h => by rw [h1 x y h]; simp⟩

/-- Witness for C7 at the spec's non-uniform domain [0, 1, 3, 4]. -/
theorem sprague_nonuniform_rejected_witness :
    is_uniform [0, 1, 3, 4] = false ∧
      SpragueInterpolator.create [0, 1, 3, 4] [0, 0, 0, 0] = .error .domainConfig :=
  ⟨by norm_num [is_uniform, get_steps, List.dedup],
    sprague_nonuniform_rejected.1 _ _ (by norm_num [is_uniform, get_steps, List.dedup])⟩

/-- C6: evaluating a Linear or Sprague interpolant directly (not wrapped in
an Extrapolator) at a query strictly outside `[min(domain), max(domain)]`
(strictly below every domain sample or strictly above every domain sample)
fails at evaluation time with a domain error instead of returning a value. -/
theorem evaluate_out_of_domain :
    (∀ (L : LinearInterpolator) (x : ℚ), L.x ≠ [] →
      ((∀ a ∈ L.x, x < a) ∨ (∀ a ∈ L.x, a < x)) →
      L.evaluate x = .error .domainError) ∧
    (∀ (S : SpragueInterpolator) (x : ℚ), S.x ≠ [] →
      ((∀ a ∈ S.x, x < a) ∨ (∀ a ∈ S.x, a < x)) →
      S.evaluate x = .error .domainError) := by
  constructor
  · intro L x hne hout
    rw [LinearInterpolator.evaluate, if_pos]
    rcases hout with h | h
    · exact Or.inl (h _ (headI_mem_of_ne_nil _ hne))
    · exact Or.inr (h _ (getLastD_mem_of_ne_nil _ hne))
  · intro S x hne hout
    rw [SpragueInterpolator.evaluate, if_pos]
    rcases hout with h | h
    · exact Or.inl (h _ (headI_mem_of_ne_nil _ hne))
    · exact Or.inr (h _ (getLastD_mem_of_ne_nil _ hne))

/-- Witness for C6: the Linear interpolant over domain [0, 1, 2] queried at
5, and the Sprague interpolant over domain [0..5] queried at -1. -/
theorem evaluate_out_of_domain_witness :
    (([0, 1, 2] : List ℚ) ≠ [] ∧ (∀ a ∈ ([0, 1, 2] : List ℚ), a < 5)) ∧
    (([0, 1, 2, 3, 4, 5] : List ℚ) ≠ [] ∧ (∀ a ∈ ([0, 1, 2, 3, 4, 5] : List ℚ), (-1 : ℚ) < a)) ∧
    LinearInterpolator.evaluate ⟨[0, 1, 2], [0, 10, 0]⟩ 5 = .error .domainError ∧
    SpragueInterpolator.evaluate ⟨[0, 1, 2, 3, 4, 5], [0, 1, 2, 3, 4, 5]⟩ (-1) =
      .error .domainError :=
  ⟨⟨by simp, by norm_num⟩, ⟨by simp, by norm_num⟩,
    evaluate_out_of_domain.1 ⟨[0, 1, 2], [0, 10, 0]⟩ 5 (by simp) (Or.inr (by norm_num)),
    evaluate_out_of_domain.2 ⟨[0, 1, 2, 3, 4, 5], [0, 1, 2, 3, 4, 5]⟩ (-1) (by simp)
      (Or.inl (by norm_num))⟩

lemma bracket_correct (x : ℚ) :
    ∀ (l : List (ℚ × ℚ)),
      (∀ (i j : ℕ) (hi : i < l.length) (hj : j < l.length), i < j → l[i].1 < l[j].1) →
      ∀ (i : ℕ) (hi1 : i + 1 < l.length),
        l[i].1 ≤ x → x ≤ l[i + 1].1 →
        bracket x l = l[i].2 + (l[i + 1].2 - l[i].2) * (x - l[i].1) / (l[i + 1].1 - l[i].1) := by
  intro l
  induction l with
  | nil => intro _ i hi1; simp at hi1
  | cons p l ih =>
    intro hmono i hi1 hxl hxr
    cases l with
    | nil => simp at hi1
    | cons q r =>
      have hi1' : i < (q :: r).length := by simp at hi1 ⊢; omega
      match i, hi1, hi1', hxl, hxr with
      | 0, hi1, hi1', hxl, hxr =>
        simp only [List.getElem_cons_zero, List.getElem_cons_succ] at hxl hxr ⊢
        rw [bracket, if_pos hxr]
      | Nat.succ i', hi1, hi1', hxl, hxr =>
        simp only [List.getElem_cons_succ] at hxl hxr
        have hi'l : i' < (q :: r).length := by simp at hi1 ⊢; omega
        have hq_le_x : q.1 ≤ x := by
          rcases Nat.eq_zero_or_pos i' with h0 | hpos
          · subst h0
            simpa using hxl
          · have hm := hmono 1 (i' + 1) (by simp) (by simp at hi1 ⊢; omega) (by omega)
            simp only [List.getElem_cons_succ, List.getElem_cons_zero] at hm
            exact le_of_lt (lt_of_lt_of_le hm hxl)
        by_cases hxq : x ≤ q.1
        · have hx_eq : x = q.1 := le_antisymm hxq hq_le_x
          have hi0 : i' = 0 := by
            by_contra hne
            have hm := hmono 1 (i' + 1) (by simp) (by simp at hi1 ⊢; omega) (by omega)
            simp only [List.getElem_cons_succ, List.getElem_cons_zero] at hm
            have hle : (q :: r)[i'].1 ≤ q.1 := hx_eq ▸ hxl
            exact lt_irrefl _ (lt_of_lt_of_le hm hle)
          subst hi0
          have hpq : p.1 < q.1 := by
            have := hmono 0 1 (by simp) (by simp) (by omega)
            simpa using this
          rw [bracket, if_pos hxq, hx_eq]
          rw [mul_div_assoc, div_self (ne_of_gt (by linarith)), mul_one]
          simp only [List.getElem_cons_succ, List.getElem_cons_zero] at hxl hxr ⊢
          rw [sub_self, mul_zero, zero_div, add_zero]
          ring
        · rw [bracket, if_neg hxq]
          have hmono' : ∀ (a b : ℕ) (ha : a < (q :: r).length) (hb : b < (q :: r).length),
              a < b → ((q :: r)[a]).1 < ((q :: r)[b]).1 := by
            intro a b ha hb hab
            have := hmono (a + 1) (b + 1) (by simpa using ha) (by simpa using hb) (by omega)
            simpa using this
          have hlen : i' + 1 < (q :: r).length := by simp at hi1 ⊢; omega
          have := ih hmono' i' hlen hxl hxr
          simp only [List.getElem_cons_succ]
          exact this

lemma sInc_chain : ∀ (l : List ℚ), strictlyIncreasing l = true → l.Chain' (· < ·) := by
  intro l
  induction l with
  | nil => intro _; exact List.chain'_nil
  | cons a l ih =>
    cases l with
    | nil => intro _; simp
    | cons b m =>
      intro h
      simp only [strictlyIncreasing, Bool.and_eq_true, decide_eq_true_eq] at h
      exact List.chain'_cons.mpr ⟨h.1, ih h.2⟩

lemma sInc_lt (l : List ℚ) (h : strictlyIncreasing l = true) :
    ∀ (i j : ℕ) (hi : i < l.length) (hj : j < l.length), i < j → l[i] < l[j] :=
  List.pairwise_iff_getElem.mp (List.chain'_iff_pairwise.mp (sInc_chain l h))

lemma sInc_le (l : List ℚ) (h : strictlyIncreasing l = true) :
    ∀ (i j : ℕ) (hi : i < l.length) (hj : j < l.length), i ≤ j → l[i] ≤ l[j] := by
  intro i j hi hj hij
  rcases eq_or_lt_of_le hij with h0 | h0
  · subst h0; exact le_refl _
  · exact le_of_lt (sInc_lt l h i j hi hj h0)

lemma headI_eq_getElem (l : List ℚ) (hl : 0 < l.length) : l.headI = l[0] := by
  cases l with
  | nil => simp at hl
  | cons v vs => rfl

lemma getLastD_eq_getElem (l : List ℚ) (hl : l ≠ []) (h1 : l.length - 1 < l.length) :
    l.getLastD 0 = l[l.length - 1] := by
  rw [List.getLastD_eq_getLast?, List.getLast?_eq_getElem?, List.getElem?_eq_getElem h1]
  rfl

lemma linear_evaluate_eq (xs ys : List ℚ) (hs : strictlyIncreasing xs = true)
    (hlen : xs.length = ys.length) (i : ℕ) (hi1 : i + 1 < xs.length) (q : ℚ)
    (hql : xs[i] ≤ q) (hqr : q ≤ xs[i + 1]) :
    LinearInterpolator.evaluate ⟨xs, ys⟩ q =
      .ok (ys[i] + (ys[i + 1] - ys[i]) * (q - xs[i]) / (xs[i + 1] - xs[i])) := by
  have hlz : (xs.zip ys).length = xs.length := by
    rw [List.length_zip, hlen, min_self]
  have hne : xs ≠ [] := by
    intro h0; rw [h0] at hi1; simp at hi1
  have h0q : xs[0] ≤ q := le_trans (sInc_le xs hs 0 i (by omega) (by omega) (by omega)) hql
  have hqlast : q ≤ xs[xs.length - 1] :=
    le_trans hqr (sInc_le xs hs (i + 1) (xs.length - 1) (by omega) (by omega) (by omega))
  simp only [LinearInterpolator.evaluate]
  rw [if_neg]
  · congr 1
    have hmz : ∀ (a b : ℕ) (ha : a < (xs.zip ys).length) (hb : b < (xs.zip ys).length),
        a < b → ((xs.zip ys)[a]).1 < ((xs.zip ys)[b]).1 := by
      intro a b ha hb hab
      rw [hlz] at ha hb
      simp only [List.getElem_zip]
      exact sInc_lt xs hs a b ha hb hab
    have := bracket_correct q (xs.zip ys) hmz i (by omega)
      (by simp [List.getElem_zip]; exact hql) (by simp [List.getElem_zip]; exact hqr)
    rw [this]
    simp [List.getElem_zip]
  · push_neg
    constructor
    · rw [headI_eq_getElem xs (by omega)]
      exact h0q
    · rw [getLastD_eq_getElem xs hne (by omega)]
      exact hqlast

/-- C5: for a valid series and any query bracketed by two consecutive domain
samples, the Linear Interpolator returns
`y_i + (y_{i+1} - y_i) * (x - x_i) / (x_{i+1} - x_i)` for that bracketing
interval; in particular over domain [0, 1, 2] and range [0, 10, 0] it returns
5 at both 0.5 and 1.5. -/
theorem linear_evaluate_formula :
    (∀ (xs ys : List ℚ) (hs : strictlyIncreasing xs = true)
      (hlen : xs.length = ys.length) (i : ℕ) (hi1 : i + 1 < xs.length) (q : ℚ)
      (hql : xs[i] ≤ q) (hqr : q ≤ xs[i + 1]),
      LinearInterpolator.evaluate ⟨xs, ys⟩ q =
        .ok (ys[i] + (ys[i + 1] - ys[i]) * (q - xs[i]) / (xs[i + 1] - xs[i]))) ∧
    LinearInterpolator.evaluate ⟨[0, 1, 2], [0, 10, 0]⟩ (1 / 2) = .ok 5 ∧
    LinearInterpolator.evaluate ⟨[0, 1, 2], [0, 10, 0]⟩ (3 / 2) = .ok 5 :=
  ⟨linear_evaluate_eq,
    by norm_num [LinearInterpolator.evaluate, bracket, List.headI, List.getLastD],
    by norm_num [LinearInterpolator.evaluate, bracket, List.headI, List.getLastD]⟩

/-- Witness for C5 over domain [0, 1, 2], range [0, 10, 0], interval 0,
query 1/2. -/
theorem linear_evaluate_formula_witness :
    (strictlyIncreasing [0, 1, 2] = true ∧
      ([0, 1, 2] : List ℚ).length = ([0, 10, 0] : List ℚ).length ∧
      ([0, 1, 2] : List ℚ)[0] ≤ (1 / 2 : ℚ) ∧ (1 / 2 : ℚ) ≤ ([0, 1, 2] : List ℚ)[1]) ∧
    LinearInterpolator.evaluate ⟨[0, 1, 2], [0, 10, 0]⟩ (1 / 2) =
      .ok (([0, 10, 0] : List ℚ)[0] +
        (([0, 10, 0] : List ℚ)[1] - ([0, 10, 0] : List ℚ)[0]) *
          (1 / 2 - ([0, 1, 2] : List ℚ)[0]) /
          (([0, 1, 2] : List ℚ)[1] - ([0, 1, 2] : List ℚ)[0])) :=
  ⟨⟨by norm_num [strictlyIncreasing], by simp, by norm_num, by norm_num⟩,
    linear_evaluate_formula.1 [0, 1, 2] [0, 10, 0] (by norm_num [strictlyIncreasing])
      (by simp) 0 (by simp) (1 / 2) (by norm_num) (by norm_num)⟩

lemma dedup_len_le_one_eq (l : List ℚ) (h : l.dedup.length ≤ 1) :
    ∀ a ∈ l, ∀ b ∈ l, a = b := by
  intro a ha b hb
  have ha' := List.mem_dedup.mpr ha
  have hb' := List.mem_dedup.mpr hb
  cases hL : l.dedup with
  | nil => rw [hL] at ha'; exact absurd ha' (List.not_mem_nil a)
  | cons c m =>
    cases m with
    | nil =>
      rw [hL] at ha' hb'
      rw [List.mem_singleton] at ha' hb'
      rw [ha', hb']
    | cons d m2 => rw [hL] at h; simp at h

lemma tail_headI_eq (xs : List ℚ) (h2 : 2 ≤ xs.length) : xs.tail.headI = xs[1] := by
  cases xs with
  | nil => simp at h2
  | cons a t =>
    cases t with
    | nil => simp at h2
    | cons b r => rfl

lemma uniform_steps (xs : List ℚ) (hu : is_uniform xs = true) :
    ∀ (k : ℕ) (hk : k + 1 < xs.length), xs[k + 1] - xs[k] = xs[1] - xs[0] := by
  intro k hk
  have hlen : (List.zipWith (fun a b => b - a) xs xs.tail).length = xs.length - 1 := by
    rw [List.length_zipWith, List.length_tail]
    omega
  have hk' : k < (List.zipWith (fun a b => b - a) xs xs.tail).length := by omega
  have h0' : 0 < (List.zipWith (fun a b => b - a) xs xs.tail).length := by omega
  have hdl : (get_steps xs).length ≤ 1 := by
    simpa [is_uniform] using hu
  have helem : ∀ (j : ℕ) (hj : j < (List.zipWith (fun a b => b - a) xs xs.tail).length),
      (List.zipWith (fun a b => b - a) xs xs.tail)[j] = xs[j + 1] - xs[j] := by
    intro j hj
    rw [List.getElem_zipWith, List.getElem_tail]
  have heq := dedup_len_le_one_eq _ hdl _ (List.getElem_mem hk') _ (List.getElem_mem h0')
  rw [helem k hk', helem 0 h0'] at heq
  simpa using heq

lemma uniform_getElem (xs : List ℚ) (hu : is_uniform xs = true) (h2 : 2 ≤ xs.length) :
    ∀ (i : ℕ) (hi : i < xs.length), xs[i] = xs[0] + i * (xs[1] - xs[0]) := by
  intro i
  induction i with
  | zero => intro hi; simp
  | succ k ih =>
    intro hi
    have hk : k < xs.length := by omega
    have := uniform_steps xs hu k (by omega)
    have hext : xs[k + 1] = xs[k] + (xs[1] - xs[0]) := by linarith [this]
    rw [hext, ih hk]
    push_cast
    ring

lemma sprague_poly_at_zero (a b c d e f : ℚ) : sprague_poly a b c d e f 0 = c := by
  simp [sprague_poly]

lemma drop_getD (l : List ℚ) (n m : ℕ) (d : ℚ) : (l.drop n).getD m d = l.getD (n + m) d := by
  rw [List.getD_eq_getElem?_getD, List.getElem?_drop, ← List.getD_eq_getElem?_getD]

lemma extended_getD (ys : List ℚ) (j : ℕ) (hj : j < ys.length) :
    (extended ys).getD (j + 3) 0 = ys[j] := by
  rw [extended, List.getD_eq_getElem?_getD]
  rw [List.getElem?_append_left (by simp [extension3]; omega)]
  rw [List.getElem?_append_right (by simp [extension3])]
  have h3 : (extension3 ys).reverse.length = 3 := by simp [extension3]
  rw [h3]
  have hj3 : j + 3 - 3 = j := by omega
  rw [hj3, List.getElem?_eq_getElem hj]
  rfl

lemma sprague_node (xs ys : List ℚ) (hs : strictlyIncreasing xs = true)
    (hlen : xs.length = ys.length) (hu : is_uniform xs = true) (h6 : 6 ≤ xs.length)
    (i : ℕ) (hi : i < xs.length) :
    SpragueInterpolator.evaluate ⟨xs, ys⟩ xs[i] = .ok ys[i] := by
  have h2 : 2 ≤ xs.length := by omega
  have hne : xs ≠ [] := by intro h0; rw [h0] at h6; simp at h6
  have hstep : xs[0] < xs[1] := sInc_lt xs hs 0 1 (by omega) (by omega) (by omega)
  have hd : xs[1] - xs[0] ≠ 0 := ne_of_gt (sub_pos.mpr hstep)
  have e0 : xs.headI = xs[0] := headI_eq_getElem xs (by omega)
  have e1 : xs.tail.headI = xs[1] := tail_headI_eq xs h2
  rw [SpragueInterpolator.evaluate]
  rw [if_neg]
  · congr 1
    have hq : (xs[i] - xs[0]) / (xs[1] - xs[0]) = (i : ℚ) := by
      rw [uniform_getElem xs hu h2 i hi, add_sub_cancel_left]
      exact mul_div_cancel_right₀ _ hd
    simp only [sprague_window, e0, e1, hq, Int.floor_natCast, Int.toNat_natCast, sub_self]
    rw [sprague_poly_at_zero, drop_getD]
    have hidx : i + 1 + 2 = i + 3 := by omega
    rw [hidx]
    exact extended_getD ys i (by omega)
  · push_neg
    constructor
    · rw [e0]
      exact sInc_le xs hs 0 i (by omega) (by omega) (by omega)
    · rw [getLastD_eq_getElem xs hne (by omega)]
      exact sInc_le xs hs i (xs.length - 1) (by omega) (by omega) (by omega)

lemma linear_node (xs ys : List ℚ) (hs : strictlyIncreasing xs = true)
    (hlen : xs.length = ys.length) (h2 : 2 ≤ xs.length)
    (i : ℕ) (hi : i < xs.length) :
    LinearInterpolator.evaluate ⟨xs, ys⟩ xs[i] = .ok ys[i] := by
  cases i with
  | zero =>
    have := linear_evaluate_eq xs ys hs hlen 0 (by omega) xs[0] (le_refl _)
      (sInc_le xs hs 0 1 (by omega) (by omega) (by omega))
    rw [this, sub_self, mul_zero, zero_div, add_zero]
  | succ j =>
    have hj1 : xs[j] ≤ xs[j + 1] := sInc_le xs hs j (j + 1) (by omega) (by omega) (by omega)
    have hd : xs[j + 1] - xs[j] ≠ 0 :=
      ne_of_gt (sub_pos.mpr (sInc_lt xs hs j (j + 1) (by omega) (by omega) (by omega)))
    have := linear_evaluate_eq xs ys hs hlen j hi xs[j + 1] hj1 (le_refl _)
    rw [this, mul_div_assoc, div_self hd, mul_one]
    congr 1
    ring

/-- C1: for every interpolant constructed from a valid sample series
(strictly increasing domain, matching lengths; at least two points for
Linear, a uniform domain of at least six points for Sprague), construction
succeeds and evaluating at each domain sample returns exactly the
corresponding range value, for both interpolation methods. -/
theorem interpolants_node_exact :
    (∀ (xs ys : List ℚ) (hs : strictlyIncreasing xs = true)
      (hlen : xs.length = ys.length) (h2 : 2 ≤ xs.length) (i : ℕ) (hi : i < xs.length),
      LinearInterpolator.create xs ys = .ok ⟨xs, ys⟩ ∧
      LinearInterpolator.evaluate ⟨xs, ys⟩ xs[i] = .ok ys[i]) ∧
    (∀ (xs ys : List ℚ) (hs : strictlyIncreasing xs = true)
      (hlen : xs.length = ys.length) (hu : is_uniform xs = true) (h6 : 6 ≤ xs.length)
      (i : ℕ) (hi : i < xs.length),
      SpragueInterpolator.create xs ys = .ok ⟨xs, ys⟩ ∧
      SpragueInterpolator.evaluate ⟨xs, ys⟩ xs[i] = .ok ys[i]) := by
  constructor
  · intro xs ys hs hlen h2 i hi
    exact ⟨by simp [LinearInterpolator.create, hs, hlen]; omega,
      linear_node xs ys hs hlen h2 i hi⟩
  · intro xs ys hs hlen hu h6 i hi
    exact ⟨by simp [SpragueInterpolator.create, hs, hlen, hu]; omega,
      sprague_node xs ys hs hlen hu h6 i hi⟩

/-- Witness for C1: the Linear interpolant over ([0, 1], [5, 7]) at node 1,
and the Sprague interpolant over ([0..5], squares) at node 2. -/
theorem interpolants_node_exact_witness :
    (strictlyIncreasing [0, 1] = true ∧ is_uniform [0, 1, 2, 3, 4, 5] = true) ∧
    (LinearInterpolator.create [0, 1] [5, 7] = .ok ⟨[0, 1], [5, 7]⟩ ∧
      LinearInterpolator.evaluate ⟨[0, 1], [5, 7]⟩ (([0, 1] : List ℚ)[1]) =
        .ok (([5, 7] : List ℚ)[1])) ∧
    (SpragueInterpolator.create [0, 1, 2, 3, 4, 5] [0, 1, 4, 9, 16, 25] =
        .ok ⟨[0, 1, 2, 3, 4, 5], [0, 1, 4, 9, 16, 25]⟩ ∧
      SpragueInterpolator.evaluate ⟨[0, 1, 2, 3, 4, 5], [0, 1, 4, 9, 16, 25]⟩
        (([0, 1, 2, 3, 4, 5] : List ℚ)[2]) = .ok (([0, 1, 4, 9, 16, 25] : List ℚ)[2])) :=
  ⟨⟨by norm_num [strictlyIncreasing], by norm_num [is_uniform, get_steps, List.dedup]⟩,
    interpolants_node_exact.1 [0, 1] [5, 7] (by norm_num [strictlyIncreasing]) (by simp)
      (by simp) 1 (by simp),
    interpolants_node_exact.2 [0, 1, 2, 3, 4, 5] [0, 1, 4, 9, 16, 25]
      (by norm_num [strictlyIncreasing]) (by simp)
      (by norm_num [is_uniform, get_steps, List.dedup]) (by simp) 2 (by simp)⟩

/-- C4: the Extrapolator's evaluation is the piecewise rule: inside
`[lo, hi]` it returns exactly the wrapped interpolant's value; below `lo`,
constant extension returns `f(lo)` and linear extension
`f(lo) + (x - lo) * (f(x1) - f(x0)) / (x1 - x0)` with the slope between the
first two domain samples; symmetrically above `hi` with the last two
samples; and on the spec's series (domain [0, 1, 2], range [0, 1, 4]) the
linear method gives -1 at -1 and 7 at 3, the constant method 0 at -1 and 4
at 5. -/
theorem extrapolator_piecewise :
    (∀ (E : Extrapolator1d) (x : ℚ) (h1 : E.xs.headI ≤ x) (h2 : x ≤ E.xs.getLastD 0),
      E.evaluate x = E.ev x) ∧
    (∀ (E : Extrapolator1d) (x : ℚ) (hx : x < E.xs.headI)
      (hm : E.method = .methodConstant), E.evaluate x = E.ev E.xs.headI) ∧
    (∀ (E : Extrapolator1d) (x : ℚ) (flo f0 f1 : ℚ) (hx : x < E.xs.headI)
      (hm : E.method = .methodLinear) (e1 : E.ev E.xs.headI = .ok flo)
      (e2 : E.ev (E.xs.getD 0 0) = .ok f0) (e3 : E.ev (E.xs.getD 1 0) = .ok f1),
      E.evaluate x =
        .ok (flo + (x - E.xs.headI) * (f1 - f0) / (E.xs.getD 1 0 - E.xs.getD 0 0))) ∧
    (∀ (E : Extrapolator1d) (x : ℚ) (hx : E.xs.getLastD 0 < x)
      (hlo : ¬ x < E.xs.headI) (hm : E.method = .methodConstant),
      E.evaluate x = E.ev (E.xs.getLastD 0)) ∧
    (∀ (E : Extrapolator1d) (x : ℚ) (fhi fa fb : ℚ) (hx : E.xs.getLastD 0 < x)
      (hlo : ¬ x < E.xs.headI) (hm : E.method = .methodLinear)
      (e1 : E.ev (E.xs.getLastD 0) = .ok fhi)
      (e2 : E.ev (E.xs.getD (E.xs.length - 2) 0) = .ok fa)
      (e3 : E.ev (E.xs.getD (E.xs.length - 1) 0) = .ok fb),
      E.evaluate x = .ok (fhi + (x - E.xs.getLastD 0) * (fb - fa) /
        (E.xs.getD (E.xs.length - 1) 0 - E.xs.getD (E.xs.length - 2) 0))) ∧
    ((wrapLinear ⟨[0, 1, 2], [0, 1, 4]⟩ .methodLinear).evaluate (-1) = .ok (-1) ∧
      (wrapLinear ⟨[0, 1, 2], [0, 1, 4]⟩ .methodLinear).evaluate 3 = .ok 7 ∧
      (wrapLinear ⟨[0, 1, 2], [0, 1, 4]⟩ .methodConstant).evaluate (-1) = .ok 0 ∧
      (wrapLinear ⟨[0, 1, 2], [0, 1, 4]⟩ .methodConstant).evaluate 5 = .ok 4) := by
  refine ⟨?_, ?_, ?_, ?_, ?_, ?_⟩
  · intro E x h1 h2
    rw [Extrapolator1d.evaluate, if_neg (not_lt.mpr h1), if_neg (not_lt.mpr h2)]
  · intro E x hx hm
    rw [Extrapolator1d.evaluate, if_pos hx, hm]
  · intro E x flo f0 f1 hx hm e1 e2 e3
    rw [Extrapolator1d.evaluate, if_pos hx, hm]
    simp only [List.getD_eq_getElem?_getD] at e2 e3
    simp [e1, e2, e3, Bind.bind, Except.bind, Functor.map, Except.map, Pure.pure, Except.pure]
  · intro E x hx hlo hm
    rw [Extrapolator1d.evaluate, if_neg hlo, if_pos hx, hm]
  · intro E x fhi fa fb hx hlo hm e1 e2 e3
    rw [Extrapolator1d.evaluate, if_neg hlo, if_pos hx, hm]
    simp only [List.getD_eq_getElem?_getD, List.getLastD_eq_getLast?] at e1 e2 e3
    simp [e1, e2, e3, Bind.bind, Except.bind, Functor.map, Except.map, Pure.pure, Except.pure]
  · refine ⟨?_, ?_, ?_, ?_⟩ <;>
      norm_num [Extrapolator1d.evaluate, wrapLinear, LinearInterpolator.evaluate, bracket,
        List.headI, List.getLastD, Bind.bind, Except.bind, Functor.map, Except.map,
        Pure.pure, Except.pure]

/-- Witness for C4: the constant-method Extrapolator wrapping the Linear
interpolant over ([0, 1, 2], [0, 1, 4]) queried below the domain at -1. -/
theorem extrapolator_piecewise_witness :
    ((-1 : ℚ) < (wrapLinear ⟨[0, 1, 2], [0, 1, 4]⟩ .methodConstant).xs.headI ∧
      (wrapLinear ⟨[0, 1, 2], [0, 1, 4]⟩ .methodConstant).method = .methodConstant) ∧
    (wrapLinear ⟨[0, 1, 2], [0, 1, 4]⟩ .methodConstant).evaluate (-1) =
      (wrapLinear ⟨[0, 1, 2], [0, 1, 4]⟩ .methodConstant).ev
        (wrapLinear ⟨[0, 1, 2], [0, 1, 4]⟩ .methodConstant).xs.headI :=
  ⟨⟨by norm_num [wrapLinear, List.headI], rfl⟩,
    extrapolator_piecewise.2.1 (wrapLinear ⟨[0, 1, 2], [0, 1, 4]⟩ .methodConstant) (-1)
      (by norm_num [wrapLinear, List.headI]) rfl⟩
